import Mathlib

/-!
Verification of the unwebhook hook-dispatch engine (hook.go, webhook.go).

The Go source is shallowly embedded as follows.

* Go JSON-decoded data (`interface\x7b\x7d` values held in an `Event`
  map) becomes the mutual inductive `Value` / `ValueList` / `FieldList`.
  The `unser` constructor stands for the Go values that `json.Marshal`
  rejects (functions, channels, ...), so that the `json` template
  function from `templateFuncs` can be modelled faithfully.
* `text/template` is standard-library code.  Its parse step is carried
  as data: a `Src` record holds the source text together with the parse
  result (`Except.error` for invalid syntax) of the env-expanded text,
  and a compiled template is a list of `Tmpl` parts (literal text,
  field access, and application of the `json` function from
  `templateFuncs` in hook.go lines 17-25).  Rendering follows
  text/template evaluation: a field path is resolved step by step,
  failing on a lookup inside a non-map value, and the first failure
  aborts the render.
* Process-level effects are represented explicitly: `Sys` carries the
  `exec.LookPath` results and, for each spawned argument vector, a
  `ChildSpec` describing how the child process would behave (how many
  seconds it runs and whether it exits successfully).  `RunLog` records
  which commands were spawned and which were killed.  A Go run-time
  panic from indexing an empty slice (or calling through a nil template
  pointer) is the `crash` outcome.
* The timer race in runCommand (hook.go lines 256-275) is resolved
  deterministically: the child wins the `select` exactly when its
  running time is strictly below the hook Timeout.
-/

mutual
inductive Value where
  | str (s : String)
  | num (n : Int)
  | vbool (b : Bool)
  | null
  | unser (tag : String)
  | arr (xs : ValueList)
  | obj (fs : FieldList)
deriving Repr
inductive ValueList where
  | nil
  | cons (v : Value) (rest : ValueList)
deriving Repr
inductive FieldList where
  | nil
  | cons (k : String) (v : Value) (rest : FieldList)
deriving Repr
end

/- Default text/template output for a value (fmt-style formatting);
only the rendering of string values is relied on by any theorem. -/
mutual
def valueText : Value → String
  | Value.str s => s
  | Value.num n => toString n
  | Value.vbool b => cond b "true" "false"
  | Value.null => "<no value>"
  | Value.unser tag => tag
  | Value.arr xs => "[" ++ valueTextList xs ++ "]"
  | Value.obj fs => "map[" ++ valueTextFields fs ++ "]"
def valueTextList : ValueList → String
  | ValueList.nil => ""
  | ValueList.cons v ValueList.nil => valueText v
  | ValueList.cons v rest => valueText v ++ " " ++ valueTextList rest
def valueTextFields : FieldList → String
  | FieldList.nil => ""
  | FieldList.cons k v FieldList.nil => k ++ ":" ++ valueText v
  | FieldList.cons k v rest => k ++ ":" ++ valueText v ++ " " ++ valueTextFields rest
end

/- json.Marshal: canonical JSON serialization, failing on values whose
dynamic type is unsupported (modelled by `Value.unser`).  Character
escaping inside strings is elided. -/
mutual
def marshal : Value → Except String String
  | Value.str s => Except.ok ("\"" ++ s ++ "\"")
  | Value.num n => Except.ok (toString n)
  | Value.vbool b => Except.ok (cond b "true" "false")
  | Value.null => Except.ok "null"
  | Value.unser tag => Except.error ("json: unsupported type: " ++ tag)
  | Value.arr xs => match marshalList xs with
      | Except.error e => Except.error e
      | Except.ok body => Except.ok ("[" ++ body ++ "]")
  | Value.obj fs => match marshalFields fs with
      | Except.error e => Except.error e
      | Except.ok body => Except.ok ("\x7b" ++ body ++ "\x7d")
def marshalList : ValueList → Except String String
  | ValueList.nil => Except.ok ""
  | ValueList.cons v rest => match marshal v, marshalList rest with
      | Except.error e, _ => Except.error e
      | _, Except.error e => Except.error e
      | Except.ok s, Except.ok "" => Except.ok s
      | Except.ok s, Except.ok r => Except.ok (s ++ "," ++ r)
def marshalFields : FieldList → Except String String
  | FieldList.nil => Except.ok ""
  | FieldList.cons k v rest => match marshal v, marshalFields rest with
      | Except.error e, _ => Except.error e
      | _, Except.error e => Except.error e
      | Except.ok s, Except.ok "" => Except.ok ("\"" ++ k ++ "\":" ++ s)
      | Except.ok s, Except.ok r => Except.ok ("\"" ++ k ++ "\":" ++ s ++ "," ++ r)
end

/-- Lookup in a Go map (keys are unique, so first match suffices). -/
def FieldList.find : FieldList → String → Option Value
  | FieldList.nil, _ => none
  | FieldList.cons k v rest, key => if k = key then some v else rest.find key

/-- Go map assignment `m[key] = v`: replace the binding if present,
otherwise add it. -/
def FieldList.set : FieldList → String → Value → FieldList
  | FieldList.nil, key, v => FieldList.cons key v FieldList.nil
  | FieldList.cons k v0 rest, key, v =>
    if k = key then FieldList.cons k v rest else FieldList.cons k v0 (rest.set key v)

/-- Event (event.go): the JSON-decoded notification payload, a Go map
from string keys to arbitrary values, mutated by assignment. -/
structure Event where
  entries : FieldList
deriving Repr

def Event.get (e : Event) (k : String) : Option Value :=
  e.entries.find k

def Event.set (e : Event) (k : String) (v : Value) : Event :=
  ⟨e.entries.set k v⟩

/-- The Go type assertion `e[k].(string)`: yields the string only when
the key is present and holds a string value. -/
def Event.getStr (e : Event) (k : String) : Option String :=
  match e.get k with
  | some (Value.str s) => some s
  | _ => none

/-- One part of a compiled text/template body. -/
inductive Tmpl where
  | lit (s : String)
  | field (path : List String)
  | jsonOf (path : List String)
deriving Repr

/-- text/template field-path resolution on a data value.  A missing
final key renders as the no-value marker; descending into a missing or
non-map intermediate value is an execution error. -/
def getPath (v : Value) : List String → Except String Value
  | [] => Except.ok v
  | k :: ks => match v with
    | Value.obj fields =>
      match fields.find k with
      | some v2 => getPath v2 ks
      | none => match ks with
        | [] => Except.ok Value.null
        | _ => Except.error ("nil data; no entry for key " ++ k)
    | _ => Except.error ("can not evaluate field " ++ k ++ " in non-map value")

/-- Render one template part against the event data.  The `json`
function (templateFuncs, hook.go lines 17-25) never fails: when
json.Marshal returns an error the function substitutes the text
`<< error >>` into the output. -/
def renderPart (e : Event) : Tmpl → Except String String
  | Tmpl.lit s => Except.ok s
  | Tmpl.field path => (getPath (Value.obj e.entries) path).map valueText
  | Tmpl.jsonOf path =>
    match getPath (Value.obj e.entries) path with
    | Except.error m => Except.error m
    | Except.ok v =>
      match marshal v with
      | Except.ok s => Except.ok s
      | Except.error m => Except.ok ("<< " ++ m ++ " >>")

/-- template.Execute: concatenate the parts, stopping at the first
error. -/
def render (parts : List Tmpl) (e : Event) : Except String String :=
  match parts with
  | [] => Except.ok ""
  | p :: rest =>
    match renderPart e p with
    | Except.error m => Except.error m
    | Except.ok s =>
      match render rest e with
      | Except.error m => Except.error m
      | Except.ok r => Except.ok (s ++ r)

/-- A template source string: the raw text together with the parse
result of the env-expanded text (text/template parsing is library
behaviour, carried as data; `Except.error` means invalid syntax). -/
structure Src where
  text : String
  parsed : Except String (List Tmpl)
deriving Repr

/-- createTemplate (hook.go lines 27-30): os.ExpandEnv then Parse. -/
def createTemplate (s : Src) : Except String (List Tmpl) :=
  s.parsed

/-- Hook (webhook.go lines 15-55).  The lower-case fields are the
compiled state; option `none` is a nil Go slice or nil pointer, and an
entry `none` inside a list is a nil template pointer. -/
structure Hook where
  Url : String
  Dir : Src
  Env : List Src
  PerCommit : Bool
  AllowEvent : List String
  AllowPipelineStatus : List String
  AllowBranches : List String
  Commands : List (List Src)
  Timeout : Nat
  Secret : String
  cmdTemplate : Option (List (List (Option (List Tmpl)))) := none
  envTemplate : Option (List (Option (List Tmpl))) := none
  dirTemplate : Option (List Tmpl) := none

/-- The inner loop of CreateTemplates over one pre-allocated slice of
template pointers: compiled entries before a failure, the failure slot
and everything after it left nil, first error returned. -/
def compileSrcList : List Src → List (Option (List Tmpl)) × Option String
  | [] => ([], none)
  | s :: rest =>
    match createTemplate s with
    | Except.error e => (none :: rest.map (fun _ => none), some e)
    | Except.ok t =>
      (some t :: (compileSrcList rest).1, (compileSrcList rest).2)

/-- The Commands loop of CreateTemplates (hook.go lines 35-47): on any
error the whole cmdTemplate is reset to nil. -/
def compileCommands : List (List Src) → Option (List (List (Option (List Tmpl)))) × Option String
  | [] => (some [], none)
  | row :: rest =>
    match (compileSrcList row).2 with
    | some e => (none, some e)
    | none =>
      match compileCommands rest with
      | (none, e) => (none, e)
      | (some rs, _) => (some ((compileSrcList row).1 :: rs), none)

/-- The Dir step of CreateTemplates (hook.go lines 61-68). -/
def dirStep (h : Hook) : Hook × Option String :=
  if h.Dir.text ≠ "" then
    match createTemplate h.Dir with
    | Except.error e => ({ h with dirTemplate := none }, some e)
    | Except.ok t => ({ h with dirTemplate := some t }, none)
  else
    ({ h with dirTemplate := none }, none)

/-- CreateTemplates (hook.go lines 33-71): compile commands, then
environment entries, then the directory, returning the first error. -/
def Hook.CreateTemplates (hook : Hook) : Hook × Option String :=
  let (ct, cerr) := compileCommands hook.Commands
  let h1 := { hook with cmdTemplate := ct }
  match cerr with
  | some e => (h1, some e)
  | none =>
    if hook.Env.length ≠ 0 then
      let (et, eerr) := compileSrcList hook.Env
      let h2 := { h1 with envTemplate := some et }
      match eerr with
      | some e => (h2, some e)
      | none => dirStep h2
    else
      dirStep { h1 with envTemplate := none }

/-- Result of one dispatch stage: success, a Go error value, or a Go
run-time panic (empty-slice index or nil template pointer). -/
inductive Res (α : Type) where
  | ok (a : α)
  | err (msg : String)
  | crash
deriving Repr

/-- Terminal outcome of processEvent for one unit of work. -/
inductive Outcome where
  | ok
  | err (msg : String)
  | crash
deriving Repr, DecidableEq

/-- Observable process side effects of one unit: the argument vectors
spawned and those killed by the timeout. -/
structure RunLog where
  spawned : List (List String)
  killed : List (List String)
deriving Repr, DecidableEq

def RunLog.empty : RunLog := ⟨[], []⟩

def RunLog.append (a b : RunLog) : RunLog :=
  ⟨a.spawned ++ b.spawned, a.killed ++ b.killed⟩

/-- Behaviour the spawned child process would have: its running time in
seconds and whether it terminates successfully. -/
structure ChildSpec where
  runSeconds : Nat
  exitSuccess : Bool

/-- External state consumed by the Executor: exec.LookPath results and
the behaviour of the child process for each argument vector. -/
structure Sys where
  lookPath : String → Except String String
  child : List String → ChildSpec

/-- processCommand (hook.go lines 228-243): render every argument of
one command, stopping at the first error.  Calling Execute through a
nil template pointer is a run-time panic. -/
def processCommand (e : Event) : List (Option (List Tmpl)) → Res (List String)
  | [] => Res.ok []
  | none :: _ => Res.crash
  | some tm :: rest =>
    match render tm e with
    | Except.error m => Res.err m
    | Except.ok s =>
      match processCommand e rest with
      | Res.ok xs => Res.ok (s :: xs)
      | Res.err m => Res.err m
      | Res.crash => Res.crash

/-- The first loop of processEvent (hook.go lines 205-216): render each
command and resolve its executable (`cmds[i][0]`, a panic when the
rendered command is empty), before anything is run. -/
def prepareCmds (sys : Sys) (e : Event) : List (List (Option (List Tmpl))) → Res (List (List String))
  | [] => Res.ok []
  | t :: rest =>
    match processCommand e t with
    | Res.err m => Res.err m
    | Res.crash => Res.crash
    | Res.ok cmdList =>
      match cmdList with
      | [] => Res.crash
      | c0 :: ctail =>
        match sys.lookPath c0 with
        | Except.error m => Res.err ("Executable " ++ c0 ++ " " ++ m)
        | Except.ok p =>
          match prepareCmds sys e rest with
          | Res.ok rs => Res.ok ((p :: ctail) :: rs)
          | Res.err m => Res.err m
          | Res.crash => Res.crash

/-- The environment loop of processEvent (hook.go lines 194-203). -/
def renderEnvList (e : Event) : List (Option (List Tmpl)) → Res (List String)
  | [] => Res.ok []
  | none :: _ => Res.crash
  | some tm :: rest =>
    match render tm e with
    | Except.error m => Res.err m
    | Except.ok s =>
      match renderEnvList e rest with
      | Res.ok xs => Res.ok (s :: xs)
      | Res.err m => Res.err m
      | Res.crash => Res.crash

/-- The directory step of processEvent (hook.go lines 185-192). -/
def renderDir (e : Event) : Option (List Tmpl) → Res String
  | none => Res.ok ""
  | some tm =>
    match render tm e with
    | Except.error m => Res.err m
    | Except.ok s => Res.ok s

/-- runCommand (hook.go lines 245-276): `args[0]` panics on an empty
vector; otherwise the child is spawned and its completion races the
Timeout timer.  The error of cmd.Wait is discarded, so when the child
finishes first the command reports success whatever its exit status;
when the timer fires first the child is killed and a timeout error
naming the command is returned. -/
def Hook.runCommand (hook : Hook) (sys : Sys) (args : List String)
    (env : List String) (dir : String) : RunLog × Outcome :=
  match args with
  | [] => (RunLog.empty, Outcome.crash)
  | _ :: _ =>
    let spec := sys.child args
    if spec.runSeconds < hook.Timeout then
      (⟨[args], []⟩, Outcome.ok)
    else
      (⟨[args], [args]⟩,
       Outcome.err ("Command [" ++ String.intercalate " " args ++ "] timed out"))

/-- The run loop of processEvent (hook.go lines 218-223): commands in
sequence, stopping at the first failure. -/
def runCmds (hook : Hook) (sys : Sys) (env : List String) (dir : String) :
    List (List String) → RunLog × Outcome
  | [] => (RunLog.empty, Outcome.ok)
  | c :: rest =>
    let (lg, o) := hook.runCommand sys c env dir
    match o with
    | Outcome.ok =>
      let (lgs, o2) := runCmds hook sys env dir rest
      (lg.append lgs, o2)
    | Outcome.err m => (lg, Outcome.err m)
    | Outcome.crash => (lg, Outcome.crash)

/-- processEvent (hook.go lines 179-226): directory, then environment,
then render-and-resolve every command, then run them in sequence. -/
def Hook.processEvent (hook : Hook) (sys : Sys) (e : Event) : RunLog × Outcome :=
  match renderDir e hook.dirTemplate with
  | Res.err m => (RunLog.empty, Outcome.err m)
  | Res.crash => (RunLog.empty, Outcome.crash)
  | Res.ok dir =>
    match renderEnvList e (hook.envTemplate.getD []) with
    | Res.err m => (RunLog.empty, Outcome.err m)
    | Res.crash => (RunLog.empty, Outcome.crash)
    | Res.ok env =>
      match prepareCmds sys e (hook.cmdTemplate.getD []) with
      | Res.err m => (RunLog.empty, Outcome.err m)
      | Res.crash => (RunLog.empty, Outcome.crash)
      | Res.ok cmds => runCmds hook sys env dir cmds

/-- Which predicate of the filter stage rejected the event, mirroring
the distinct log lines of Execute (hook.go lines 75-144). -/
inductive Reject where
  | typeNonString
  | typeNotAllowed
  | statusNonString
  | statusNotAllowed
  | refNonString
  | branchNotAllowed
deriving Repr, DecidableEq

/-- Strip one leading `refs/heads/` from the ref, as in hook.go lines
123-127 (`ref[len:]` drops 11 bytes; the stripped text is ASCII, so
dropping 11 characters is the same operation). -/
def stripRef (ref : String) : String :=
  if "refs/heads/".data.isPrefixOf ref.data then String.mk (ref.data.drop 11) else ref

/-- The branch comparison loop of hook.go lines 129-135. -/
def branchAllowed (allow : List String) (ref : String) : Bool :=
  allow.contains (stripRef ref)

/-- The AllowBranches block of Execute (hook.go lines 116-144). -/
def filterBranch (hook : Hook) (e : Event) : Option Reject :=
  if hook.AllowBranches.length ≠ 0 then
    match e.getStr "ref" with
    | none => some Reject.refNonString
    | some ref =>
      if branchAllowed hook.AllowBranches ref then none else some Reject.branchNotAllowed
  else none

/-- The AllowPipelineStatus block of Execute (hook.go lines 95-114),
falling through to the branch block on acceptance. -/
def filterStatus (hook : Hook) (e : Event) : Option Reject :=
  if hook.AllowPipelineStatus.length ≠ 0 then
    match e.getStr "status" with
    | none => some Reject.statusNonString
    | some st =>
      if hook.AllowPipelineStatus.contains st then filterBranch hook e
      else some Reject.statusNotAllowed
  else filterBranch hook e

/-- The AllowEvent block of Execute (hook.go lines 75-94), falling
through to the pipeline-status block on acceptance. -/
def filterReject (hook : Hook) (e : Event) : Option Reject :=
  if hook.AllowEvent.length ≠ 0 then
    match e.getStr "type" with
    | none => some Reject.typeNonString
    | some t =>
      if hook.AllowEvent.contains t then filterStatus hook e
      else some Reject.typeNotAllowed
  else filterStatus hook e

/-- Observable result of one Execute call: the rejecting predicate (if
any), the processEvent invocations with the event each one received and
its outcome, the process side effects, and the state of the event map
of the caller when Execute returns (the map is shared, so mutations made by
the per-commit loop are visible here). -/
structure ExecResult where
  rejected : Option Reject
  units : List (Event × Outcome)
  log : RunLog
  finalEvent : Event
deriving Repr

/-- The per-commit loop of Execute (hook.go lines 149-166): non-map
commit records are skipped; otherwise the record is assigned to
`commit` in the shared event map and processEvent is called; its error
is logged and the loop continues. -/
def perCommitLoop (hook : Hook) (sys : Sys) (e : Event) :
    List Value → List (Event × Outcome) × RunLog × Event
  | [] => ([], RunLog.empty, e)
  | g :: rest =>
    match g with
    | Value.obj m =>
      let e2 := e.set "commit" (Value.obj m)
      let (lg, o) := hook.processEvent sys e2
      let (us, lgs, ef) := perCommitLoop hook sys e2 rest
      ((e2, o) :: us, lg.append lgs, ef)
    | _ => perCommitLoop hook sys e rest

/-- Execute (hook.go lines 74-177).  Commit-list derivation
(`e.Commits()`) lives in the event-normalization code outside this
core, so it is passed in as `commitsOf`; `none` models a nil slice. -/
def Hook.Execute (hook : Hook) (sys : Sys) (commitsOf : Event → Option (List Value))
    (e : Event) : ExecResult :=
  match filterReject hook e with
  | some r => ⟨some r, [], RunLog.empty, e⟩
  | none =>
    if hook.PerCommit then
      match commitsOf e with
      | none => ⟨none, [], RunLog.empty, e⟩
      | some commits =>
        let (us, lg, ef) := perCommitLoop hook sys e commits
        ⟨none, us, lg, ef⟩
    else
      let (lg, o) := hook.processEvent sys e
      ⟨none, [(e, o)], lg, e⟩

/-! ## Source validity predicates and concrete fixtures -/

/-- A template source with valid syntax. -/
def srcOk (s : Src) : Bool :=
  match s.parsed with
  | Except.ok _ => true
  | Except.error _ => false

/-- All templates of the Hook that CreateTemplates will compile have
valid syntax (the directory only counts when it is non-empty). -/
def hookSrcValid (hook : Hook) : Bool :=
  hook.Commands.all (fun row => row.all srcOk) && hook.Env.all srcOk &&
    (hook.Dir.text == "" || srcOk hook.Dir)

/-- A compiled-template slice holding both populated and nil entries. -/
def mixedEntries {α : Type} (xs : List (Option α)) : Bool :=
  xs.any (fun o => o.isSome) && xs.any (fun o => o.isNone)

/-- A source whose template body is the literal text itself. -/
def srcLit (s : String) : Src := ⟨s, Except.ok [Tmpl.lit s]⟩

/-- A source with invalid template syntax. -/
def srcBad : Src := ⟨"bad", Except.error "template: syntax error"⟩

/-- The empty source string (an unset Dir). -/
def emptySrc : Src := ⟨"", Except.ok []⟩

def eEmpty : Event := ⟨FieldList.nil⟩

def hookBase : Hook :=
  { Url := "/h", Dir := emptySrc, Env := [], PerCommit := false,
    AllowEvent := [], AllowPipelineStatus := [], AllowBranches := [],
    Commands := [[srcLit "c1"], [srcLit "c2"]], Timeout := 5, Secret := "" }

/-- A resolver that finds every executable under /bin, and children
that finish immediately, the first command with a failing exit status. -/
def sysBase : Sys :=
  ⟨fun s => Except.ok ("/bin/" ++ s),
   fun args => if args = ["/bin/c1"] then ⟨0, false⟩ else ⟨0, true⟩⟩

/-! ## CreateTemplates: structure lemmas -/

lemma compileSrcList_snd_none_iff (xs : List Src) :
    (compileSrcList xs).2 = none ↔ xs.all srcOk = true := by
  induction xs with
  | nil => simp [compileSrcList]
  | cons s rest ih =>
    cases hp : s.parsed with
    | error e =>
      simp [compileSrcList, createTemplate, hp, srcOk]
    | ok t =>
      simp [compileSrcList, createTemplate, hp, srcOk, ih]

lemma compileSrcList_fst_ok (xs : List Src) (h : xs.all srcOk = true) :
    (compileSrcList xs).1 = xs.map (fun s => (createTemplate s).toOption) := by
  induction xs with
  | nil => simp [compileSrcList]
  | cons s rest ih =>
    rw [List.all_cons, Bool.and_eq_true] at h
    cases hp : s.parsed with
    | error e => simp [srcOk, hp] at h
    | ok t =>
      simp only [compileSrcList, createTemplate, hp]
      rw [ih h.2]
      simp [Except.toOption, hp, createTemplate]

lemma compileCommands_snd_of_fst_some (rows : List (List Src)) (rs : List (List (Option (List Tmpl))))
    (h : (compileCommands rows).1 = some rs) : (compileCommands rows).2 = none := by
  cases rows with
  | nil => rfl
  | cons row rest =>
    cases hr : (compileSrcList row).2 with
    | some e => simp [compileCommands, hr] at h
    | none =>
      cases hc : compileCommands rest with
      | mk f s =>
        cases f with
        | none => simp [compileCommands, hr, hc] at h
        | some rs2 => simp [compileCommands, hr, hc]

lemma compileCommands_snd_none_iff (rows : List (List Src)) :
    (compileCommands rows).2 = none ↔ rows.all (fun row => row.all srcOk) = true := by
  induction rows with
  | nil => simp [compileCommands]
  | cons row rest ih =>
    cases hr : (compileSrcList row).2 with
    | some e =>
      have hna : ¬ row.all srcOk = true := by
        intro hall
        have hn := (compileSrcList_snd_none_iff row).mpr hall
        rw [hr] at hn
        exact Option.noConfusion hn
      simp [compileCommands, hr, hna]
    | none =>
      have hall : row.all srcOk = true := (compileSrcList_snd_none_iff row).mp hr
      cases hc : compileCommands rest with
      | mk f s =>
        cases f with
        | none =>
          have hs : (compileCommands (row :: rest)).2 = s := by
            simp [compileCommands, hr, hc]
          have hrest : (compileCommands rest).2 = s := by rw [hc]
          rw [hs, ← hrest, ih, List.all_cons, hall]
          simp
        | some rs =>
          have hs : (compileCommands (row :: rest)).2 = none := by
            simp [compileCommands, hr, hc]
          have hrest : (compileCommands rest).2 = none :=
            compileCommands_snd_of_fst_some rest rs (by rw [hc])
          have hallr : rest.all (fun row => row.all srcOk) = true := ih.mp hrest
          simp [hs, List.all_cons, hall, hallr]

lemma compileCommands_fst_ok (rows : List (List Src))
    (h : rows.all (fun row => row.all srcOk) = true) :
    (compileCommands rows).1 =
      some (rows.map (fun row => row.map (fun s => (createTemplate s).toOption))) := by
  induction rows with
  | nil => simp [compileCommands]
  | cons row rest ih =>
    rw [List.all_cons, Bool.and_eq_true] at h
    have hr : (compileSrcList row).2 = none := (compileSrcList_snd_none_iff row).mpr h.1
    have hrest := ih h.2
    cases hc : compileCommands rest with
    | mk f s =>
      rw [hc] at hrest
      simp only at hrest
      subst hrest
      simp [compileCommands, hr, hc, compileSrcList_fst_ok row h.1]

lemma dirStep_cmdEnv (h : Hook) :
    (dirStep h).1.cmdTemplate = h.cmdTemplate ∧ (dirStep h).1.envTemplate = h.envTemplate := by
  unfold dirStep
  by_cases hd : h.Dir.text = ""
  · simp [hd]
  · cases hc : createTemplate h.Dir with
    | error e => simp [hd, hc]
    | ok t => simp [hd, hc]

lemma dirStep_snd_none_iff (h : Hook) :
    (dirStep h).2 = none ↔ (h.Dir.text == "" || srcOk h.Dir) = true := by
  unfold dirStep
  by_cases hd : h.Dir.text = ""
  · simp [hd]
  · cases hc : h.Dir.parsed with
    | error e => simp [hd, hc, createTemplate, srcOk]
    | ok t => simp [hd, hc, createTemplate, srcOk]

lemma dirStep_fst_dir (h : Hook) (hn : (dirStep h).2 = none) :
    (dirStep h).1.dirTemplate =
      (if h.Dir.text = "" then none else (createTemplate h.Dir).toOption) := by
  unfold dirStep at hn ⊢
  by_cases hd : h.Dir.text = ""
  · simp [hd]
  · cases hc : h.Dir.parsed with
    | error e => simp [hd, hc, createTemplate] at hn
    | ok t => simp [hd, hc, createTemplate, Except.toOption]

lemma createTemplates_snd_none_iff (hook : Hook) :
    (hook.CreateTemplates).2 = none ↔ hookSrcValid hook = true := by
  cases hcc : compileCommands hook.Commands with
  | mk ct cerr =>
    cases cerr with
    | some e =>
      have hne : ¬ hook.Commands.all (fun row => row.all srcOk) = true := by
        intro hall
        have hx := (compileCommands_snd_none_iff hook.Commands).mpr hall
        rw [hcc] at hx
        exact Option.noConfusion hx
      simp [Hook.CreateTemplates, hcc, hookSrcValid, Bool.and_eq_true, hne]
    | none =>
      have hall : hook.Commands.all (fun row => row.all srcOk) = true :=
        (compileCommands_snd_none_iff hook.Commands).mp (by rw [hcc])
      by_cases he : hook.Env.length = 0
      · have henil : hook.Env = [] := List.length_eq_zero.mp he
        simp [Hook.CreateTemplates, hcc, henil, hookSrcValid, Bool.and_eq_true, hall,
          dirStep_snd_none_iff]
      · cases hes : (compileSrcList hook.Env).2 with
        | some e2 =>
          have hnE : ¬ hook.Env.all srcOk = true := by
            intro hallE
            have hx := (compileSrcList_snd_none_iff hook.Env).mpr hallE
            rw [hes] at hx
            exact Option.noConfusion hx
          simp [Hook.CreateTemplates, hcc, he, hes, hookSrcValid, Bool.and_eq_true, hall, hnE]
        | none =>
          have hallE : hook.Env.all srcOk = true :=
            (compileSrcList_snd_none_iff hook.Env).mp hes
          simp [Hook.CreateTemplates, hcc, he, hes, hookSrcValid, Bool.and_eq_true, hall, hallE,
            dirStep_snd_none_iff]

lemma createTemplates_ok_shape (hook : Hook) (hn : (hook.CreateTemplates).2 = none) :
    (hook.CreateTemplates).1.cmdTemplate =
      some (hook.Commands.map (fun row => row.map (fun s => (createTemplate s).toOption))) ∧
    (hook.CreateTemplates).1.envTemplate =
      (if hook.Env.length = 0 then none
       else some (hook.Env.map (fun s => (createTemplate s).toOption))) ∧
    (hook.CreateTemplates).1.dirTemplate =
      (if hook.Dir.text = "" then none else (createTemplate hook.Dir).toOption) := by
  have hv : hookSrcValid hook = true := (createTemplates_snd_none_iff hook).mp hn
  simp only [hookSrcValid, Bool.and_eq_true] at hv
  obtain ⟨⟨hallC, hallE⟩, hdirV⟩ := hv
  cases hcc : compileCommands hook.Commands with
  | mk ct cerr =>
    have hct : ct = some (hook.Commands.map (fun row => row.map (fun s => (createTemplate s).toOption))) := by
      have := compileCommands_fst_ok hook.Commands hallC
      rw [hcc] at this
      exact this
    cases cerr with
    | some e =>
      have hx := (compileCommands_snd_none_iff hook.Commands).mpr hallC
      rw [hcc] at hx
      exact absurd hx (by simp)
    | none =>
      by_cases he : hook.Env.length = 0
      · have henil : hook.Env = [] := List.length_eq_zero.mp he
        have hsnd : (hook.CreateTemplates).2 =
            (dirStep { hook with cmdTemplate := ct, envTemplate := none }).2 := by
          simp [Hook.CreateTemplates, hcc, henil]
        rw [hsnd] at hn
        have hpre := dirStep_cmdEnv { hook with cmdTemplate := ct, envTemplate := none }
        have hdir := dirStep_fst_dir { hook with cmdTemplate := ct, envTemplate := none } hn
        have hfst : (hook.CreateTemplates).1 =
            (dirStep { hook with cmdTemplate := ct, envTemplate := none }).1 := by
          simp [Hook.CreateTemplates, hcc, henil]
        rw [hfst, hpre.1, hpre.2, hdir]
        simp [hct, henil]
      · cases hes : (compileSrcList hook.Env).2 with
        | some e2 =>
          have hx := (compileSrcList_snd_none_iff hook.Env).mpr hallE
          rw [hes] at hx
          exact absurd hx (by simp)
        | none =>
          have hev : (compileSrcList hook.Env).1 =
              hook.Env.map (fun s => (createTemplate s).toOption) :=
            compileSrcList_fst_ok hook.Env hallE
          have hsnd : (hook.CreateTemplates).2 = (dirStep { hook with cmdTemplate := ct, envTemplate := some ((compileSrcList hook.Env).1) }).2 := by
            simp [Hook.CreateTemplates, hcc, he, hes]
          rw [hsnd] at hn
          have hpre := dirStep_cmdEnv { hook with cmdTemplate := ct, envTemplate := some ((compileSrcList hook.Env).1) }
          have hdir := dirStep_fst_dir { hook with cmdTemplate := ct, envTemplate := some ((compileSrcList hook.Env).1) } hn
          have hfst : (hook.CreateTemplates).1 = (dirStep { hook with cmdTemplate := ct, envTemplate := some ((compileSrcList hook.Env).1) }).1 := by
            simp [Hook.CreateTemplates, hcc, he, hes]
          rw [hfst, hpre.1, hpre.2, hdir]
          simp [hct, he, hev]

lemma srcOk_toOption_isSome (s : Src) (h : srcOk s = true) :
    ((createTemplate s).toOption).isSome = true := by
  cases hp : s.parsed with
  | error e => rw [srcOk, hp] at h; exact Bool.noConfusion h
  | ok t => simp [createTemplate, hp, Except.toOption]

/-! ## C2 -/

/-- A hook whose first environment template is valid and second has
invalid syntax, while all command templates are valid. -/
def hookC2 : Hook := { hookBase with Commands := [[srcLit "c1"]], Env := [srcLit "A=1", srcBad] }

/-- C2, counterexample.  The claim says a failed CreateTemplates leaves
no mixture of populated and unpopulated compiled entries.  On hookC2,
CreateTemplates returns an error (so it failed), yet the resulting
envTemplate slice holds one compiled entry followed by one nil entry —
a mixture — and the fully compiled cmdTemplate is also left in place. -/
theorem createTemplates_env_failure_mixture :
    (hookC2.CreateTemplates).2 = some "template: syntax error" ∧
    (hookC2.CreateTemplates).1.envTemplate = some [some [Tmpl.lit "A=1"], none] ∧
    mixedEntries (((hookC2.CreateTemplates).1.envTemplate).getD []) = true ∧
    (hookC2.CreateTemplates).1.cmdTemplate = some [[some [Tmpl.lit "c1"]]] :=
  ⟨rfl, rfl, rfl, rfl⟩

/-- C2, amended.  CreateTemplates returns nil exactly when every
template it compiles (all command arguments, all environment entries,
and the directory when non-empty) has valid syntax; on success the
compiled structures are fully populated and length/order-consistent
with their source lists.  (On an environment or directory failure the
Hook keeps the previously compiled cmdTemplate and a partially
populated envTemplate — see the counterexample — and is kept from
dispatch only because the loader in webhook.go treats the error as
fatal.) -/
theorem createTemplates_error_iff_success_shape (hook : Hook) :
    ((hook.CreateTemplates).2 = none ↔ hookSrcValid hook = true) ∧
    ((hook.CreateTemplates).2 = none →
      (hook.CreateTemplates).1.cmdTemplate =
        some (hook.Commands.map (fun row => row.map (fun s => (createTemplate s).toOption))) ∧
      (hook.CreateTemplates).1.envTemplate =
        (if hook.Env.length = 0 then none
         else some (hook.Env.map (fun s => (createTemplate s).toOption))) ∧
      (hook.CreateTemplates).1.dirTemplate =
        (if hook.Dir.text = "" then none else (createTemplate hook.Dir).toOption) ∧
      (∀ row ∈ hook.Commands, ∀ s ∈ row, ((createTemplate s).toOption).isSome = true) ∧
      (∀ s ∈ hook.Env, ((createTemplate s).toOption).isSome = true)) := by
  refine ⟨createTemplates_snd_none_iff hook, fun hn => ?_⟩
  have hv : hookSrcValid hook = true := (createTemplates_snd_none_iff hook).mp hn
  simp only [hookSrcValid, Bool.and_eq_true] at hv
  obtain ⟨⟨hallC, hallE⟩, _⟩ := hv
  rw [List.all_eq_true] at hallC hallE
  obtain ⟨h1, h2, h3⟩ := createTemplates_ok_shape hook hn
  refine ⟨h1, h2, h3, ?_, ?_⟩
  · intro row hrow s hs
    have := hallC row hrow
    rw [List.all_eq_true] at this
    exact srcOk_toOption_isSome s (this s hs)
  · intro s hs
    exact srcOk_toOption_isSome s (hallE s hs)

/-- C2, witness: the amended theorem applied to the concrete hookBase,
whose templates are all valid. -/
theorem createTemplates_error_iff_success_shape_witness :
    (hookBase.CreateTemplates).2 = none ∧
    (hookBase.CreateTemplates).1.cmdTemplate =
      some [[some [Tmpl.lit "c1"]], [some [Tmpl.lit "c2"]]] := by
  have h := createTemplates_error_iff_success_shape hookBase
  have hn : (hookBase.CreateTemplates).2 = none := h.1.mpr rfl
  exact ⟨hn, ((h.2 hn).1).trans rfl⟩

/-! ## C1 -/

/-- hookBase after load-time template compilation. -/
def hookBaseCompiled : Hook := (hookBase.CreateTemplates).1

/-- C1, counterexample.  The claim says a command whose child process
exits with a non-success status is reported as a failure that aborts
the remaining commands of the unit.  Under sysBase the child of the
first command exits immediately with a failing status, yet processEvent
spawns both commands and reports success: the error of cmd.Wait() is
discarded in runCommand, so a nonzero exit neither surfaces nor aborts
the unit. -/
theorem nonzero_exit_does_not_abort_unit :
    (sysBase.child ["/bin/c1"]).exitSuccess = false ∧
    hookBaseCompiled.processEvent sysBase eEmpty =
      (⟨[["/bin/c1"], ["/bin/c2"]], []⟩, Outcome.ok) :=
  ⟨rfl, rfl⟩

/-- C1, amended.  In a whole-event unit the failures that abort are
render errors, resolution errors and timeouts: if the commands before
position k all finish within the Timeout and command k does not, then
exactly the commands up to and including k are spawned, command k is
killed, the timeout failure naming it is surfaced, and the commands
after k are never started.  A child that exits before the timeout is
treated as success regardless of its exit status. -/
theorem runCmds_stops_at_first_timeout
    (hook : Hook) (sys : Sys) (env : List String) (dir : String)
    (pre : List (List String)) (c : List String) (post : List (List String))
    (hpre : ∀ d ∈ pre, d ≠ [] ∧ (sys.child d).runSeconds < hook.Timeout)
    (hc : c ≠ []) (hslow : ¬ (sys.child c).runSeconds < hook.Timeout) :
    runCmds hook sys env dir (pre ++ c :: post) =
      (⟨pre ++ [c], [c]⟩,
       Outcome.err ("Command [" ++ String.intercalate " " c ++ "] timed out")) := by
  induction pre with
  | nil =>
    cases c with
    | nil => exact absurd rfl hc
    | cons a rest =>
      simp [runCmds, Hook.runCommand, hslow]
  | cons d pre ih =>
    obtain ⟨hdne, hdfast⟩ := hpre d (List.mem_cons_self _ _)
    have ihx := ih (fun x hx => hpre x (List.mem_cons_of_mem _ hx))
    cases d with
    | nil => exact absurd rfl hdne
    | cons a rest =>
      simp [runCmds, Hook.runCommand, hdfast, ihx, RunLog.append]

/-- A system where only the command vector /bin/b runs past the
timeout. -/
def sysTimeout : Sys :=
  ⟨fun s => Except.ok s, fun args => if args = ["/bin/b"] then ⟨99, true⟩ else ⟨0, true⟩⟩

/-- C1, witness: the amended theorem applied at a concrete run — the
command after the timed-out one is not spawned and the timeout error is
surfaced. -/
theorem runCmds_stops_at_first_timeout_witness :
    runCmds hookBase sysTimeout [] "" [["/bin/a"], ["/bin/b"], ["/bin/z"]] =
      (⟨[["/bin/a"], ["/bin/b"]], [["/bin/b"]]⟩,
       Outcome.err "Command [/bin/b] timed out") :=
  runCmds_stops_at_first_timeout hookBase sysTimeout [] "" [["/bin/a"]] ["/bin/b"]
    [["/bin/z"]] (by decide) (by decide) (by decide)

/-! ## C5 -/

/-- A system whose children exit immediately and unsuccessfully. -/
def sysFailFast : Sys := ⟨fun s => Except.ok s, fun _ => ⟨0, false⟩⟩

/-- C5, counterexample.  The claim says that when the child exits
before the timeout its exit outcome is reported.  Here the child of
command x exits (within the timeout) with a failing status, yet
runCommand reports plain success: the actual exit outcome of the child
is never reported, because the error of cmd.Wait() is discarded. -/
theorem runCommand_reports_ok_despite_failed_exit :
    (sysFailFast.child ["x"]).exitSuccess = false ∧
    hookBase.runCommand sysFailFast ["x"] [] "" = (⟨[["x"]], []⟩, Outcome.ok) :=
  ⟨rfl, rfl⟩

/-- C5, amended.  Exactly one terminal outcome is reported per command
and no retry is attempted (the command is spawned once): if the child
finishes within the Timeout of the Hook the command is reported
successful regardless of the exit status of the child and nothing is killed; if it does
not, the child is killed and the command fails with a timeout error
naming the command. -/
theorem runCommand_single_outcome (hook : Hook) (sys : Sys) (args : List String)
    (env : List String) (dir : String) (h : args ≠ []) :
    ((sys.child args).runSeconds < hook.Timeout →
      hook.runCommand sys args env dir = (⟨[args], []⟩, Outcome.ok)) ∧
    (¬ (sys.child args).runSeconds < hook.Timeout →
      hook.runCommand sys args env dir =
        (⟨[args], [args]⟩,
         Outcome.err ("Command [" ++ String.intercalate " " args ++ "] timed out"))) := by
  cases args with
  | nil => exact absurd rfl h
  | cons a rest =>
    constructor
    · intro hfast
      simp [Hook.runCommand, hfast]
    · intro hslow
      simp [Hook.runCommand, hslow]

/-- A hook with a one-second timeout. -/
def hookT1 : Hook := { hookBase with Timeout := 1 }

/-- A system whose children run for five seconds. -/
def sysSleep : Sys := ⟨fun s => Except.ok s, fun _ => ⟨5, true⟩⟩

/-- C5, witness: Timeout=1 against a five-second sleep is reported as a
timeout error naming the command, with the child killed. -/
theorem runCommand_single_outcome_witness :
    hookT1.runCommand sysSleep ["sleep", "5"] [] "" =
      (⟨[["sleep", "5"]], [["sleep", "5"]]⟩, Outcome.err "Command [sleep 5] timed out") :=
  (runCommand_single_outcome hookT1 sysSleep ["sleep", "5"] [] "" (by decide)).2 (by decide)

/-! ## C4 -/

/-- A command whose rendering and executable resolution both succeed. -/
def prepOk (sys : Sys) (e : Event) (t : List (Option (List Tmpl))) : Prop :=
  ∃ c0 ctail p, processCommand e t = Res.ok (c0 :: ctail) ∧ sys.lookPath c0 = Except.ok p

lemma prepareCmds_err_at (sys : Sys) (e : Event)
    (pre : List (List (Option (List Tmpl)))) (t : List (Option (List Tmpl)))
    (post : List (List (Option (List Tmpl)))) (c0 : String) (ctail : List String) (m : String)
    (hpre : ∀ t2 ∈ pre, prepOk sys e t2)
    (ht : processCommand e t = Res.ok (c0 :: ctail))
    (hlp : sys.lookPath c0 = Except.error m) :
    prepareCmds sys e (pre ++ t :: post) = Res.err ("Executable " ++ c0 ++ " " ++ m) := by
  induction pre with
  | nil => simp [prepareCmds, ht, hlp]
  | cons t2 pre ih =>
    obtain ⟨c02, ct2, p2, hp2, hl2⟩ := hpre t2 (List.mem_cons_self _ _)
    have ihx := ih (fun x hx => hpre x (List.mem_cons_of_mem _ hx))
    simp [prepareCmds, hp2, hl2, ihx]

/-- C4.  For every dispatch unit, the executable of every command is
resolved during the preparation loop, before any command is run: if
resolution fails for any command (the commands before it having
prepared fine, including the case of the very first command), then
processEvent spawns no command at all and reports the resolution
error naming the executable. -/
theorem resolution_failure_spawns_nothing (hook : Hook) (sys : Sys) (e : Event)
    (dir : String) (env : List String)
    (pre : List (List (Option (List Tmpl)))) (t : List (Option (List Tmpl)))
    (post : List (List (Option (List Tmpl)))) (c0 : String) (ctail : List String) (m : String)
    (hdir : renderDir e hook.dirTemplate = Res.ok dir)
    (henv : renderEnvList e (hook.envTemplate.getD []) = Res.ok env)
    (hsplit : hook.cmdTemplate.getD [] = pre ++ t :: post)
    (hpre : ∀ t2 ∈ pre, prepOk sys e t2)
    (ht : processCommand e t = Res.ok (c0 :: ctail))
    (hlp : sys.lookPath c0 = Except.error m) :
    hook.processEvent sys e = (RunLog.empty, Outcome.err ("Executable " ++ c0 ++ " " ++ m)) := by
  have hp := prepareCmds_err_at sys e pre t post c0 ctail m hpre ht hlp
  simp [Hook.processEvent, hdir, henv, hsplit, hp]

/-- A resolver that fails for every executable. -/
def sysNoExec : Sys :=
  ⟨fun _ => Except.error "executable file not found in PATH", fun _ => ⟨0, true⟩⟩

/-- C4, witness: with the first command unresolvable, the concrete
two-command unit spawns nothing and surfaces the resolution error. -/
theorem resolution_failure_spawns_nothing_witness :
    hookBaseCompiled.processEvent sysNoExec eEmpty =
      (RunLog.empty, Outcome.err "Executable c1 executable file not found in PATH") :=
  resolution_failure_spawns_nothing hookBaseCompiled sysNoExec eEmpty "" []
    [] [some [Tmpl.lit "c1"]] [[some [Tmpl.lit "c2"]]] "c1" [] "executable file not found in PATH"
    rfl rfl rfl (fun t2 h => absurd h (List.not_mem_nil t2)) rfl rfl

/-! ## C6 -/

/-- C6.  With a non-empty event-type allow-list: an absent or
non-string `type` rejects the event with no unit invoked and no process
side effect; a string `type` not in the list likewise; a `type` exactly
equal to a listed value passes the event-type predicate and the filter
decision is delegated to the pipeline-status predicate (the next stage
in the fixed order); and a pipeline-status rejection short-circuits
without consulting the branch predicate. -/
theorem eventTypeFilter (hook : Hook) (sys : Sys) (co : Event → Option (List Value))
    (e : Event) (hne : hook.AllowEvent ≠ []) :
    (e.getStr "type" = none →
      hook.Execute sys co e = ⟨some Reject.typeNonString, [], RunLog.empty, e⟩) ∧
    (∀ t, e.getStr "type" = some t → hook.AllowEvent.contains t = false →
      hook.Execute sys co e = ⟨some Reject.typeNotAllowed, [], RunLog.empty, e⟩) ∧
    (∀ t, e.getStr "type" = some t → hook.AllowEvent.contains t = true →
      filterReject hook e = filterStatus hook e) ∧
    (∀ st, hook.AllowPipelineStatus ≠ [] → e.getStr "status" = some st →
      hook.AllowPipelineStatus.contains st = false →
      filterStatus hook e = some Reject.statusNotAllowed) := by
  have hlen : hook.AllowEvent.length ≠ 0 := fun h => hne (List.length_eq_zero.mp h)
  refine ⟨?_, ?_, ?_, ?_⟩
  · intro hget
    simp [Hook.Execute, filterReject, hlen, hget]
  · intro t hget hcont
    simp only [List.contains_eq_any_beq, List.any_eq_false] at hcont
    have hnm : t ∉ hook.AllowEvent := fun hm => by simpa using hcont t hm
    simp [Hook.Execute, filterReject, hlen, hget, hnm]
  · intro t hget hcont
    simp only [List.contains_eq_any_beq, List.any_eq_true] at hcont
    obtain ⟨x, hx, hbeq⟩ := hcont
    have hm : t ∈ hook.AllowEvent := by
      have : t = x := by simpa using hbeq
      rw [this]; exact hx
    simp [filterReject, hlen, hget, hm]
  · intro st hne2 hget hcont
    have hlen2 : hook.AllowPipelineStatus.length ≠ 0 := fun h => hne2 (List.length_eq_zero.mp h)
    simp only [List.contains_eq_any_beq, List.any_eq_false] at hcont
    have hnm : st ∉ hook.AllowPipelineStatus := fun hm => by simpa using hcont st hm
    simp [filterStatus, hlen2, hget, hnm]

/-- A hook accepting only push events. -/
def hookC6 : Hook := { hookBase with AllowEvent := ["push"] }

/-- C6, witness: an event with no `type` key is rejected by the
concrete push-only hook with no unit and no process work. -/
theorem eventTypeFilter_witness :
    hookC6.Execute sysBase (fun _ => none) eEmpty =
      ⟨some Reject.typeNonString, [], RunLog.empty, eEmpty⟩ :=
  (eventTypeFilter hookC6 sysBase (fun _ => none) eEmpty (by decide)).1 rfl

/-! ## C7 -/

lemma str_append_empty (s : String) : s ++ "" = s := by
  cases s with
  | mk l =>
    show String.mk (l ++ []) = String.mk l
    rw [List.append_nil]

/-- The event of the spec scenario: ref = refs/heads/main. -/
def eRef : Event := ⟨FieldList.cons "ref" (Value.str "refs/heads/main") FieldList.nil⟩

/-- C7.  Branch matching strips exactly one leading refs/heads/ before
the exact comparison: ref refs/heads/main matches an allow-list
containing main, ref main also matches, and ref refs/heads/feature/x
does not match an allow-list containing only feature; and the stripping
does not affect template rendering — a template that substitutes the
`ref` field renders the raw stored string. -/
theorem branch_match_strips_refs_heads :
    (∀ L : List String, "main" ∈ L →
      branchAllowed L "refs/heads/main" = true ∧ branchAllowed L "main" = true) ∧
    branchAllowed ["feature"] "refs/heads/feature/x" = false ∧
    (∀ (e : Event) (s : String), e.get "ref" = some (Value.str s) →
      render [Tmpl.field ["ref"]] e = Except.ok s) := by
  have h1 : stripRef "refs/heads/main" = "main" := by decide
  have h2 : stripRef "main" = "main" := by decide
  refine ⟨?_, by decide, ?_⟩
  · intro L hm
    constructor
    · unfold branchAllowed
      rw [h1]
      exact List.elem_eq_true_of_mem hm
    · unfold branchAllowed
      rw [h2]
      exact List.elem_eq_true_of_mem hm
  · intro e s hget
    have hf : e.entries.find "ref" = some (Value.str s) := hget
    simp [render, renderPart, getPath, hf, valueText, Except.map, str_append_empty]

/-- C7, witness: the general parts applied at the concrete allow-list
and event of the spec scenario. -/
theorem branch_match_strips_refs_heads_witness :
    branchAllowed ["main"] "refs/heads/main" = true ∧
    render [Tmpl.field ["ref"]] eRef = Except.ok "refs/heads/main" :=
  ⟨(branch_match_strips_refs_heads.1 ["main"] (by decide)).1,
   branch_match_strips_refs_heads.2.2 eRef "refs/heads/main" rfl⟩

/-! ## Per-commit dispatch: C3 and C9 -/

lemma FieldList.find_set_self : ∀ (fs : FieldList) (k : String) (v : Value),
    (fs.set k v).find k = some v
  | FieldList.nil, k, v => by simp [FieldList.set, FieldList.find]
  | FieldList.cons k2 v2 rest, k, v => by
    by_cases h : k2 = k
    · simp [FieldList.set, FieldList.find, h]
    · simp [FieldList.set, FieldList.find, h, FieldList.find_set_self rest k v]

lemma FieldList.set_set_same : ∀ (fs : FieldList) (k : String) (v w : Value),
    (fs.set k v).set k w = fs.set k w
  | FieldList.nil, k, v, w => by simp [FieldList.set]
  | FieldList.cons k2 v2 rest, k, v, w => by
    by_cases h : k2 = k
    · simp [FieldList.set, h]
    · simp [FieldList.set, h, FieldList.set_set_same rest k v w]

lemma Event.get_set_self (e : Event) (k : String) (v : Value) :
    (e.set k v).get k = some v :=
  FieldList.find_set_self e.entries k v

lemma Event.set_overwrite (e : Event) (k : String) (v w : Value) :
    (e.set k v).set k w = e.set k w :=
  congrArg Event.mk (FieldList.set_set_same e.entries k v w)

lemma perCommitLoop_units (hook : Hook) (sys : Sys) :
    ∀ (cs : List Value) (e : Event), (∀ g ∈ cs, ∃ m, g = Value.obj m) →
      (perCommitLoop hook sys e cs).1.map (fun u => (u.1).get "commit") = cs.map some ∧
      (perCommitLoop hook sys e cs).1.length = cs.length := by
  intro cs
  induction cs with
  | nil => intro e hobj; simp [perCommitLoop]
  | cons g rest ih =>
    intro e hobj
    obtain ⟨m, rfl⟩ := hobj g (List.mem_cons_self _ _)
    have ihx := ih (e.set "commit" (Value.obj m))
      (fun x hx => hobj x (List.mem_cons_of_mem _ hx))
    simp [perCommitLoop, Event.get_set_self, ihx.1, ihx.2]

lemma perCommitLoop_final (hook : Hook) (sys : Sys) :
    ∀ (cs : List Value) (e : Event) (c : Value), (∀ g ∈ cs, ∃ m, g = Value.obj m) →
      cs.getLast? = some c → (perCommitLoop hook sys e cs).2.2 = e.set "commit" c := by
  intro cs
  induction cs with
  | nil => intro e c _ hlast; exact absurd hlast (by simp)
  | cons g rest ih =>
    intro e c hobj hlast
    obtain ⟨m, rfl⟩ := hobj g (List.mem_cons_self _ _)
    cases rest with
    | nil =>
      rw [List.getLast?_singleton] at hlast
      cases hlast
      simp [perCommitLoop]
    | cons g2 rest2 =>
      rw [List.getLast?_cons_cons] at hlast
      have ihx := ih (e.set "commit" (Value.obj m)) c
        (fun x hx => hobj x (List.mem_cons_of_mem _ hx)) hlast
      have hstep : (perCommitLoop hook sys e (Value.obj m :: g2 :: rest2)).2.2 =
          (perCommitLoop hook sys (e.set "commit" (Value.obj m)) (g2 :: rest2)).2.2 := rfl
      rw [hstep, ihx, Event.set_overwrite]

/-- C3.  For a per-commit Hook on an event that passes the filters,
with a derived commit list made of mapping records, Execute invokes the
render+execute unit exactly once per element and in list order: unit k
receives the event with element k stored under `commit`, and — the
system behaviour `sys` being arbitrary here, so each unit may fail in
any way — every element still gets its unit (a failure in iteration k
does not prevent iteration k+1). -/
theorem perCommit_unit_per_element (hook : Hook) (sys : Sys)
    (co : Event → Option (List Value)) (e : Event) (commits : List Value)
    (hfil : filterReject hook e = none) (hpc : hook.PerCommit = true)
    (hco : co e = some commits) (hobj : ∀ g ∈ commits, ∃ m, g = Value.obj m) :
    (hook.Execute sys co e).units.map (fun u => (u.1).get "commit") = commits.map some ∧
    (hook.Execute sys co e).units.length = commits.length := by
  have h := perCommitLoop_units hook sys commits e hobj
  simp [Hook.Execute, hfil, hpc, hco, h.1, h.2]

/-- A per-commit hook with a single one-argument command. -/
def hookPC : Hook := { hookBase with PerCommit := true, Commands := [[srcLit "c1"]] }

def hookPCCompiled : Hook := (hookPC.CreateTemplates).1

def commitA : Value := Value.obj (FieldList.cons "id" (Value.str "1") FieldList.nil)

def commitB : Value := Value.obj (FieldList.cons "id" (Value.str "2") FieldList.nil)

/-- A commit derivation returning two mapping records. -/
def coTwo : Event → Option (List Value) := fun _ => some [commitA, commitB]

/-- The event map of the caller before dispatch. -/
def eShared : Event := ⟨FieldList.cons "ref" (Value.str "r") FieldList.nil⟩

/-- C3, witness: under a resolver that fails every unit, both commits
still get their unit, in order, each with its record under `commit`. -/
theorem perCommit_unit_per_element_witness :
    (hookPCCompiled.Execute sysNoExec coTwo eShared).units.map (fun u => (u.1).get "commit") =
      [some commitA, some commitB] ∧
    (hookPCCompiled.Execute sysNoExec coTwo eShared).units.length = 2 :=
  perCommit_unit_per_element hookPCCompiled sysNoExec coTwo eShared [commitA, commitB]
    rfl rfl rfl
    (by
      intro g hg
      simp only [List.mem_cons, List.not_mem_nil, or_false] at hg
      rcases hg with rfl | rfl
      · exact ⟨_, rfl⟩
      · exact ⟨_, rfl⟩)

/-- C9, counterexample.  The claim says the commit record of each
iteration
is injected into a shallow-copied-for-mutation per-iteration view, not
into the single shared Event mapping.  In the code `e["commit"] = c`
assigns into the map of the caller: after Execute returns, that
mapping (finalEvent) holds the last commit record under `commit`, even
though the map had no such key before dispatch — the injection
happened on the shared mapping itself. -/
theorem commit_injection_mutates_shared_event :
    eShared.get "commit" = none ∧
    ((hookPCCompiled.Execute sysBase coTwo eShared).finalEvent).get "commit" = some commitB ∧
    (hookPCCompiled.Execute sysBase coTwo eShared).finalEvent = eShared.set "commit" commitB :=
  ⟨rfl, rfl, rfl⟩

/-- C9, amended.  Per-commit dispatch injects each commit record under
`commit` by assigning into the single shared Event mapping in place:
each iteration overwrites the previous record, and when Execute returns
the mapping of the caller holds the last mapping record of the commit
list. -/
theorem perCommit_injection_on_shared_map (hook : Hook) (sys : Sys)
    (co : Event → Option (List Value)) (e : Event) (commits : List Value) (c : Value)
    (hfil : filterReject hook e = none) (hpc : hook.PerCommit = true)
    (hco : co e = some commits) (hobj : ∀ g ∈ commits, ∃ m, g = Value.obj m)
    (hlast : commits.getLast? = some c) :
    (hook.Execute sys co e).finalEvent = e.set "commit" c := by
  have h := perCommitLoop_final hook sys commits e c hobj hlast
  simp [Hook.Execute, hfil, hpc, hco, h]

/-- C9, witness: the amended theorem at the concrete two-commit run. -/
theorem perCommit_injection_on_shared_map_witness :
    (hookPCCompiled.Execute sysBase coTwo eShared).finalEvent = eShared.set "commit" commitB :=
  perCommit_injection_on_shared_map hookPCCompiled sysBase coTwo eShared [commitA, commitB]
    commitB rfl rfl rfl
    (by
      intro g hg
      simp only [List.mem_cons, List.not_mem_nil, or_false] at hg
      rcases hg with rfl | rfl
      · exact ⟨_, rfl⟩
      · exact ⟨_, rfl⟩)
    rfl

/-! ## C8 -/

/-- An event holding a value json.Marshal cannot serialize. -/
def eUnser : Event := ⟨FieldList.cons "x" (Value.unser "chan int") FieldList.nil⟩

/-- C8, counterexample.  The claim says rendering fails with a render
error when the template applies the json function to an unserializable
value.  Here the value under x is unserializable (marshal errors on
it), yet the render succeeds and produces the substituted placeholder
text: the json func in templateFuncs swallows the Marshal error and
returns `<< error >>` as output text. -/
theorem json_func_substitutes_placeholder :
    marshal (Value.unser "chan int") = Except.error "json: unsupported type: chan int" ∧
    render [Tmpl.jsonOf ["x"]] eUnser =
      Except.ok "<< json: unsupported type: chan int >>" :=
  ⟨rfl, rfl⟩

/-- C8, amended.  Applying the json serialize-function to a value that
cannot be serialized does not fail the render: the Marshal error text
is substituted into the rendered output as `<< error >>` and rendering
succeeds.  (Render errors do exist — e.g. resolving a field path
through a non-map value — but not from the json function.) -/
theorem render_json_on_unserializable (e : Event) (path : List String) (v : Value)
    (msg : String) (hget : getPath (Value.obj e.entries) path = Except.ok v)
    (hmar : marshal v = Except.error msg) :
    render [Tmpl.jsonOf path] e = Except.ok ("<< " ++ msg ++ " >>") := by
  simp [render, renderPart, hget, hmar, str_append_empty]

/-- C8, witness: the amended theorem at the concrete unserializable
value. -/
theorem render_json_on_unserializable_witness :
    render [Tmpl.jsonOf ["x"]] eUnser =
      Except.ok "<< json: unsupported type: chan int >>" :=
  render_json_on_unserializable eUnser ["x"] (Value.unser "chan int")
    "json: unsupported type: chan int" rfl rfl

/-! ## C10 -/

lemma renderDir_ne_crash (e : Event) (d : Option (List Tmpl)) :
    renderDir e d ≠ Res.crash := by
  cases d with
  | none => simp [renderDir]
  | some tm => cases hr : render tm e <;> simp [renderDir, hr]

lemma renderEnvList_ne_crash (e : Event) :
    ∀ ts, (∀ o ∈ ts, o.isSome = true) → renderEnvList e ts ≠ Res.crash := by
  intro ts
  induction ts with
  | nil => intro _; simp [renderEnvList]
  | cons o rest ih =>
    intro h
    have ho := h o (List.mem_cons_self _ _)
    obtain ⟨tm, rfl⟩ := Option.isSome_iff_exists.mp ho
    have ihx := ih (fun x hx => h x (List.mem_cons_of_mem _ hx))
    cases hr : render tm e with
    | error m => simp [renderEnvList, hr]
    | ok s =>
      cases hrr : renderEnvList e rest with
      | ok xs => simp [renderEnvList, hr, hrr]
      | err m => simp [renderEnvList, hr, hrr]
      | crash => exact absurd hrr ihx

lemma processCommand_cases (e : Event) :
    ∀ ts, (∀ o ∈ ts, o.isSome = true) →
      (∃ cl, processCommand e ts = Res.ok cl ∧ cl.length = ts.length) ∨
      (∃ m, processCommand e ts = Res.err m) := by
  intro ts
  induction ts with
  | nil => intro _; exact Or.inl ⟨[], rfl, rfl⟩
  | cons o rest ih =>
    intro h
    have ho := h o (List.mem_cons_self _ _)
    obtain ⟨tm, rfl⟩ := Option.isSome_iff_exists.mp ho
    cases hr : render tm e with
    | error m => exact Or.inr ⟨m, by simp [processCommand, hr]⟩
    | ok s =>
      cases ih (fun x hx => h x (List.mem_cons_of_mem _ hx)) with
      | inl hok =>
        obtain ⟨cl, hcl, hlen⟩ := hok
        exact Or.inl ⟨s :: cl, by simp [processCommand, hr, hcl], by simp [hlen]⟩
      | inr herr =>
        obtain ⟨m, hm⟩ := herr
        exact Or.inr ⟨m, by simp [processCommand, hr, hm]⟩

lemma prepareCmds_cases (sys : Sys) (e : Event) :
    ∀ cts, (∀ row ∈ cts, (∀ o ∈ row, o.isSome = true) ∧ row ≠ []) →
      (∃ cmds, prepareCmds sys e cts = Res.ok cmds ∧ ∀ c ∈ cmds, c ≠ []) ∨
      (∃ m, prepareCmds sys e cts = Res.err m) := by
  intro cts
  induction cts with
  | nil => intro _; exact Or.inl ⟨[], rfl, by simp⟩
  | cons t rest ih =>
    intro h
    obtain ⟨hsome, hne⟩ := h t (List.mem_cons_self _ _)
    cases processCommand_cases e t hsome with
    | inr herr =>
      obtain ⟨m, hm⟩ := herr
      exact Or.inr ⟨m, by simp [prepareCmds, hm]⟩
    | inl hok =>
      obtain ⟨cl, hcl, hlen⟩ := hok
      cases cl with
      | nil =>
        have : t.length = 0 := by rw [← hlen]; rfl
        exact absurd (List.length_eq_zero.mp this) hne
      | cons c0 ctail =>
        cases hlp : sys.lookPath c0 with
        | error m =>
          exact Or.inr ⟨"Executable " ++ c0 ++ " " ++ m, by simp [prepareCmds, hcl, hlp]⟩
        | ok p =>
          cases ih (fun x hx => h x (List.mem_cons_of_mem _ hx)) with
          | inl hoks =>
            obtain ⟨cmds, hc, hall⟩ := hoks
            refine Or.inl ⟨(p :: ctail) :: cmds, by simp [prepareCmds, hcl, hlp, hc], ?_⟩
            intro c hcmem
            rcases List.mem_cons.mp hcmem with rfl | hcm
            · exact List.cons_ne_nil _ _
            · exact hall c hcm
          | inr herrs =>
            obtain ⟨m, hm⟩ := herrs
            exact Or.inr ⟨m, by simp [prepareCmds, hcl, hlp, hm]⟩

lemma runCmds_ne_crash (hook : Hook) (sys : Sys) (env : List String) (dir : String) :
    ∀ cmds, (∀ c ∈ cmds, c ≠ []) → (runCmds hook sys env dir cmds).2 ≠ Outcome.crash := by
  intro cmds
  induction cmds with
  | nil => intro _; simp [runCmds]
  | cons c rest ih =>
    intro h
    have hc := h c (List.mem_cons_self _ _)
    have ihx := ih (fun x hx => h x (List.mem_cons_of_mem _ hx))
    cases c with
    | nil => exact absurd rfl hc
    | cons a t =>
      by_cases hf : (sys.child (a :: t)).runSeconds < hook.Timeout
      · simpa [runCmds, Hook.runCommand, hf] using ihx
      · simp [runCmds, Hook.runCommand, hf]

/-- A hook whose single command has an empty argument-template list. -/
def hookEmptyCmd : Hook := { hookBase with Commands := [[]] }

/-- C10.  processEvent and runCommand index `cmds[i][0]` and `args[0]`
without an emptiness check.  First conjunct: under the precondition
that every command of the Commands list of the Hook has at least one
argument, a hook coming out of a successful CreateTemplates never
reaches the out-of-bounds access (no crash outcome), whatever the
event and system behaviour.  Remaining conjuncts: dropping the
precondition makes the out-of-bounds access reachable — a hook with an
empty command list compiles fine and then crashes in processEvent. -/
theorem empty_command_oob_precondition :
    (∀ (hook : Hook) (sys : Sys) (e : Event),
      (hook.CreateTemplates).2 = none →
      (∀ row ∈ hook.Commands, row ≠ []) →
      ((hook.CreateTemplates).1.processEvent sys e).2 ≠ Outcome.crash) ∧
    (hookEmptyCmd.CreateTemplates).2 = none ∧
    (hookEmptyCmd.CreateTemplates).1.processEvent sysBase eEmpty =
      (RunLog.empty, Outcome.crash) := by
  refine ⟨?_, rfl, rfl⟩
  intro hook sys e hn hrows
  obtain ⟨hcmd, henv, hdir, hpopC, hpopE⟩ :=
    (createTemplates_error_iff_success_shape hook).2 hn
  have henvAll : ∀ o ∈ (((hook.CreateTemplates).1.envTemplate).getD []), o.isSome = true := by
    rw [henv]
    by_cases he : hook.Env.length = 0
    · simp [he]
    · simp only [he, if_false, Option.getD_some]
      intro o ho
      obtain ⟨s, hs, rfl⟩ := List.mem_map.mp ho
      exact hpopE s hs
  have hcmdAll : ∀ row ∈ (((hook.CreateTemplates).1.cmdTemplate).getD []),
      (∀ o ∈ row, o.isSome = true) ∧ row ≠ [] := by
    rw [hcmd]
    intro row hrow
    simp only [Option.getD_some] at hrow
    obtain ⟨srow, hsrow, rfl⟩ := List.mem_map.mp hrow
    constructor
    · intro o ho
      obtain ⟨s, hs, rfl⟩ := List.mem_map.mp ho
      exact hpopC srow hsrow s hs
    · intro hnil
      exact hrows srow hsrow (List.map_eq_nil_iff.mp hnil)
  cases hd : renderDir e ((hook.CreateTemplates).1.dirTemplate) with
  | crash => exact absurd hd (renderDir_ne_crash e _)
  | err m => simp [Hook.processEvent, hd]
  | ok dirv =>
    cases hev : renderEnvList e (((hook.CreateTemplates).1.envTemplate).getD []) with
    | crash => exact absurd hev (renderEnvList_ne_crash e _ henvAll)
    | err m => simp [Hook.processEvent, hd, hev]
    | ok envv =>
      cases prepareCmds_cases sys e (((hook.CreateTemplates).1.cmdTemplate).getD []) hcmdAll with
      | inr herr =>
        obtain ⟨m, hm⟩ := herr
        simp [Hook.processEvent, hd, hev, hm]
      | inl hok =>
        obtain ⟨cmds, hc, hall⟩ := hok
        have hrun := runCmds_ne_crash (hook.CreateTemplates).1 sys envv dirv cmds hall
        simp only [Hook.processEvent, hd, hev, hc]
        cases hrc : runCmds (hook.CreateTemplates).1 sys envv dirv cmds with
        | mk lg o =>
          have : o ≠ Outcome.crash := by
            have := hrun
            rw [hrc] at this
            exact this
          simpa using this

/-- C10, witness: the safety conjunct applied to the concrete
two-command hook, whose commands are all non-empty. -/
theorem empty_command_oob_precondition_witness :
    ((hookBase.CreateTemplates).1.processEvent sysBase eEmpty).2 ≠ Outcome.crash :=
  empty_command_oob_precondition.1 hookBase sysBase eEmpty rfl
    (by
      intro row hrow
      simp only [hookBase, List.mem_cons, List.not_mem_nil, or_false] at hrow
      rcases hrow with rfl | rfl
      · exact List.cons_ne_nil _ _
      · exact List.cons_ne_nil _ _)
